import Mathlib

/-!
Shallow embedding of the SGLoader-V2 acquisition pipeline
(engine-build resolution, engine archive install, content overlay
coordination, incremental manifest sync and blob cache), translated
from the Rust sources under src/, together with theorems settling the
frozen specification claims.
-/

namespace SGLoader

/-! ## Definitions -/

/-! ### Generic string helpers mirroring Rust std behaviour -/

/-- ASCII lowercasing of a single character, as Rust
`u8::to_ascii_lowercase` does (only A-Z are affected). -/
def asciiLower (c : Char) : Char :=
  if 'A' ≤ c ∧ c ≤ 'Z' then Char.ofNat (c.toNat + 32) else c

/-- Rust `str::eq_ignore_ascii_case`: equality after ASCII lowercasing
of each character. -/
def eqIgnoreAsciiCase (a b : String) : Bool :=
  a.toList.map asciiLower == b.toList.map asciiLower

/-- Rust `str::trim`: strip leading and trailing whitespace.
Implemented over the character list so it evaluates by kernel
reduction (the whitespace class is the ASCII one relevant to the
hex/URL strings the installer trims). -/
def rustTrim (s : String) : String :=
  String.mk (((s.toList.dropWhile Char.isWhitespace).reverse.dropWhile
    Char.isWhitespace).reverse)

/-- Rust `s.trim()` on an optional string followed by
`.filter(|s| !s.is_empty())`: the pattern used throughout the installer
to normalize optional descriptor fields. -/
def trimNonEmpty (s : Option String) : Option String :=
  match s with
  | none => none
  | some v =>
    let t := rustTrim v
    if t = "" then none else some t

/-- `eq_hex_case_insensitive` from src/install/client_install.rs:
trim both sides, then ASCII-case-insensitive comparison. -/
def eq_hex_case_insensitive (a b : String) : Bool :=
  eqIgnoreAsciiCase (rustTrim a) (rustTrim b)

/-! ### EngineBuildResolver (src/install/robust_builds.rs) -/

/-- Per-platform build record of the engine manifest
(`BuildInfo` in robust_builds.rs). -/
structure BuildInfo where
  url : String
  sha256 : String
  signature : String
deriving Repr, DecidableEq

/-- Per-version record of the engine manifest
(`VersionInfo` in robust_builds.rs). -/
structure VersionInfo where
  insecure : Bool
  redirect_version : Option String
  platforms : List (String × BuildInfo)
deriving Repr, DecidableEq

/-- The engine manifest: version string to `VersionInfo`
(a `HashMap` in the source; modelled as an association list). -/
def EngineManifest : Type := List (String × VersionInfo)

/-- `HashMap::get` on the engine manifest. -/
def manifestGet (m : EngineManifest) (k : String) : Option VersionInfo :=
  match m with
  | [] => none
  | (k0, v) :: rest => if k0 = k then some v else manifestGet rest k

/-- The redirect-following loop of `follow_redirects`
(robust_builds.rs lines 98-104), with explicit fuel: `none` means the
loop is still running after `fuel` iterations (the Rust loop has no
iteration bound, so `none` for every fuel value models divergence). -/
def followRedirectsLoop (m : EngineManifest) (fuel : Nat) (version : String)
    (info : VersionInfo) : Option (Except String (String × VersionInfo)) :=
  match info.redirect_version with
  | none => some (Except.ok (version, info))
  | some next =>
    match fuel with
    | 0 => none
    | fuel + 1 =>
      match manifestGet m next with
      | none => some (Except.error "redirect engine_version отсутствует в robust manifest")
      | some info2 => followRedirectsLoop m fuel next info2

/-- `follow_redirects` from robust_builds.rs: initial lookup of the
requested version, then the redirect loop. `none` = the loop did not
finish within `fuel` iterations. -/
def follow_redirects (m : EngineManifest) (fuel : Nat) (requested : String) :
    Option (Except String (String × VersionInfo)) :=
  match manifestGet m requested with
  | none => some (Except.error "engine_version отсутствует в robust manifest")
  | some info => followRedirectsLoop m fuel requested info

/-- `v` resolves to `t` (entry `ti`) through exactly `n` redirect hops,
every hop present in the manifest and the final entry redirect-free. -/
inductive ResolvesTo (m : EngineManifest) :
    String → Nat → String → VersionInfo → Prop
  | here {v info} :
      manifestGet m v = some info → info.redirect_version = none →
      ResolvesTo m v 0 v info
  | hop {v info w n t ti} :
      manifestGet m v = some info → info.redirect_version = some w →
      ResolvesTo m w n t ti → ResolvesTo m v (n + 1) t ti

/-- `u` is reachable from `v` in exactly `n` redirect hops (each hop's
source present in the manifest; nothing is said about `u` itself). -/
inductive HopsTo (m : EngineManifest) : String → Nat → String → Prop
  | refl0 {v} : HopsTo m v 0 v
  | step {v info w n u} :
      manifestGet m v = some info → info.redirect_version = some w →
      HopsTo m w n u → HopsTo m v (n + 1) u

/-- A one-entry manifest whose single version redirects to itself. -/
def cyclicManifest : EngineManifest :=
  [("1.0", { insecure := false, redirect_version := some "1.0", platforms := [] })]

/-- Head entry of `chainManifest`: redirects to "1.1". -/
def chainHeadInfo : VersionInfo :=
  { insecure := false, redirect_version := some "1.1", platforms := [] }

/-- Terminal entry of `chainManifest`: no redirect. -/
def chainTerminalInfo : VersionInfo :=
  { insecure := false, redirect_version := none,
    platforms := [("win-x64", { url := "u", sha256 := "s", signature := "g" })] }

/-- A two-entry manifest with a single redirect hop, used as concrete input. -/
def chainManifest : EngineManifest :=
  [("1.0", chainHeadInfo), ("1.1", chainTerminalInfo)]

/-! ### SignedArtifactInstaller (src/install/client_install.rs) -/

/-- Oracle for the effects of `ensure_client_installed`: the sha-256 hex
of a pre-existing `engines/<version>/engine.zip` (if any), and the
sha-256 hex of the bytes the k-th archive download would produce. -/
structure EngineOracle where
  initialSha : Option String
  dl : Nat → String

/-- Number of downloads `ensure_client_installed` performs before the
first hash check: 0 when the archive already exists, else 1
(client_install.rs lines 35-41). -/
def engineInitialDownloads (o : EngineOracle) : Nat :=
  match o.initialSha with
  | some _ => 0
  | none => 1

/-- The sha-256 that the first `sha256_file_hex` call computes: the
existing file's hash, or the hash of the first download. -/
def engineFirstSha (o : EngineOracle) : String :=
  match o.initialSha with
  | some h => h
  | none => o.dl 0

/-- The download/verify/retry logic of `ensure_client_installed`
(client_install.rs lines 35-56): download if absent, compare sha-256
case-insensitively; on mismatch delete, download once more, recompute;
a second mismatch is fatal. Returns the number of archive downloads
performed and the outcome (final sha on success). -/
def ensure_client_installed_hash_check (expected : String) (o : EngineOracle) :
    Nat × Except String String :=
  let n0 := engineInitialDownloads o
  let actual := engineFirstSha o
  if eq_hex_case_insensitive actual expected then (n0, Except.ok actual)
  else
    let actual2 := o.dl n0
    if eq_hex_case_insensitive actual2 expected then (n0 + 1, Except.ok actual2)
    else (n0 + 1, Except.error "хеш engine.zip не совпадает (sha256)")

/-- Network requests performed by `ensure_client_installed`:
`resolve_engine_build` always calls `fetch_manifest`, which performs an
HTTP GET of the robust-builds manifest on every invocation
(robust_builds.rs lines 66-84; counted as 1 for the success case), plus
one GET per archive download. -/
def ensure_client_installed_request_count (expected : String) (o : EngineOracle) : Nat :=
  1 + (ensure_client_installed_hash_check expected o).1

/-! ### SignatureVerifier escape hatch
(src/ss14/engine_signature.rs and its call site in src/net/connect.rs) -/

/-- `should_allow_disable_signing_on_debug` (engine_signature.rs lines
52-57): the first argument models the compile-time
`cfg!(debug_assertions)` value, the second the `SS14_DISABLE_SIGNING`
environment variable (`none` = unset). -/
def should_allow_disable_signing_on_debug (debug_assertions : Bool)
    (env : Option String) : Bool :=
  debug_assertions &&
    (match env with
     | none => false
     | some v => (!(rustTrim v == "")) && (v == "1" || eqIgnoreAsciiCase v "true"))

/-- The signature gate at the call site (connect.rs lines 311-329):
a verification failure is forgiven only when the bypass predicate
holds, otherwise it is returned as the launch error. -/
def launch_signature_gate (verify : Except String Unit) (bypass : Bool) :
    Except String Unit :=
  match verify with
  | Except.ok _ => Except.ok ()
  | Except.error e => if bypass then Except.ok () else Except.error e

/-! ### ManifestContentSyncer: manifest parsing
(src/install/acz_content.rs, `parse_manifest_and_hash`) -/

/-- One parsed line of the content manifest
(`ManifestEntry` in acz_content.rs): relative path and 32-byte hash. -/
structure ManifestEntry where
  path : String
  hash : List Nat
deriving Repr, DecidableEq

/-- Value of one hex digit, both cases accepted (as `hex::decode`). -/
def hexDigitVal (c : Char) : Option Nat :=
  if '0' ≤ c ∧ c ≤ '9' then some (c.toNat - '0'.toNat)
  else if 'a' ≤ c ∧ c ≤ 'f' then some (c.toNat - 'a'.toNat + 10)
  else if 'A' ≤ c ∧ c ≤ 'F' then some (c.toNat - 'A'.toNat + 10)
  else none

/-- `hex::decode` on a character list: pairs of hex digits to bytes;
odd length or a non-hex character fails. -/
def hexDecodeList : List Char → Option (List Nat)
  | [] => some []
  | [_] => none
  | c1 :: c2 :: rest =>
    match hexDigitVal c1, hexDigitVal c2, hexDecodeList rest with
    | some hi, some lo, some tl => some ((16 * hi + lo) :: tl)
    | _, _, _ => none

/-- `hex::decode` of a string. -/
def hexDecode (s : String) : Option (List Nat) :=
  hexDecodeList s.toList

/-- Upper-case hex digit of a value below 16. -/
def hexUpperDigit (n : Nat) : Char :=
  if n < 10 then Char.ofNat ('0'.toNat + n) else Char.ofNat ('A'.toNat + n - 10)

/-- `hex::encode_upper` of a byte list. -/
def hexEncodeUpper (l : List Nat) : String :=
  String.mk (l.flatMap (fun b => [hexUpperDigit (b % 256 / 16), hexUpperDigit (b % 16)]))

/-- Split a character list on newline characters (every `\n` is a
separator; `[[]]` for the empty input), the basis of Rust
`str::lines`. -/
def splitNewlines : List Char → List (List Char)
  | [] => [[]]
  | c :: rest =>
    let r := splitNewlines rest
    if c = '\n' then [] :: r
    else
      match r with
      | [] => [[c]]
      | h :: t => (c :: h) :: t

/-- Strip one trailing carriage return, as Rust `str::lines` does per
line. -/
def stripTrailingCR (l : List Char) : List Char :=
  match l.getLast? with
  | some c => if c = '\r' then l.dropLast else l
  | none => l

/-- Rust `str::lines`: split on `\n`, drop a final empty segment
(so a trailing newline adds no empty line and `"".lines()` is empty),
strip one trailing `\r` per line. -/
def rustLines (s : String) : List String :=
  let parts := splitNewlines s.toList
  let parts :=
    match parts.getLast? with
    | some [] => parts.dropLast
    | _ => parts
  parts.map (fun l => String.mk (stripTrailingCR l))

/-- Rust `str::trim_end`: strip trailing whitespace. -/
def rustTrimEnd (s : String) : String :=
  String.mk ((s.toList.reverse.dropWhile Char.isWhitespace).reverse)

/-- Rust `line.find(' ')` followed by slicing: split the line at its
first space into the hash field and the path field. -/
def splitAtFirstSpace (s : String) : Option (String × String) :=
  match s.toList.findIdx? (fun c => c = ' ') with
  | none => none
  | some i => some (String.mk (s.toList.take i), String.mk (s.toList.drop (i + 1)))

/-- The per-line loop of `parse_manifest_and_hash` (acz_content.rs
lines 427-444): trim line ends, skip blank lines, split at the first
space, hex-decode the hash and require exactly 32 bytes. -/
def parseManifestLines : List String → Except String (List ManifestEntry)
  | [] => Except.ok []
  | l :: rest =>
    let l := rustTrimEnd l
    if l = "" then parseManifestLines rest
    else
      match splitAtFirstSpace l with
      | none => Except.error "битая строка manifest"
      | some (hashHex, path) =>
        match hexDecode hashHex with
        | none => Except.error "битый hash в manifest"
        | some bytes =>
          if bytes.length ≠ 32 then Except.error "hash в manifest не 32 байта"
          else
            match parseManifestLines rest with
            | Except.error e => Except.error e
            | Except.ok es => Except.ok ({ path := path, hash := bytes } :: es)

/-- `parse_manifest_and_hash` (acz_content.rs lines 410-447): hash the
whole raw manifest (BLAKE2b-256 abstracted as `hashFn`), require the
first line to trim to the literal header, parse the remaining lines.
Returns the entries and the upper-hex manifest-identity hash. -/
def parse_manifest_and_hash (hashFn : String → List Nat) (s : String) :
    Except String (List ManifestEntry × String) :=
  let actualHash := hexEncodeUpper (hashFn s)
  match rustLines s with
  | [] =>
    Except.error "неизвестный заголовок manifest"
  | header :: rest =>
    if rustTrim header ≠ "Robust Content Manifest 1" then
      Except.error "неизвестный заголовок manifest"
    else
      match parseManifestLines rest with
      | Except.error e => Except.error e
      | Except.ok entries => Except.ok (entries, actualHash)

/-- The manifest fetch/verify prefix of `build_overlay_zip_from_manifest`
(acz_content.rs lines 49-90): parse, then compare the manifest-identity
hash case-insensitively against the descriptor's expected manifest hash
(itself trimmed and dropped when empty). -/
def parse_and_check_manifest (hashFn : String → List Nat)
    (expectedManifestHash : Option String) (s : String) :
    Except String (List ManifestEntry × String) :=
  match parse_manifest_and_hash hashFn s with
  | Except.error e => Except.error e
  | Except.ok (entries, actual) =>
    match trimNonEmpty expectedManifestHash with
    | some expected =>
      if !(eqIgnoreAsciiCase actual expected) then
        Except.error "manifest_hash не совпадает"
      else Except.ok (entries, actual)
    | none => Except.ok (entries, actual)

/-! ### ManifestContentSyncer: deduplication and overlay assembly
(acz_content.rs, `build_overlay_zip_from_manifest`) -/

/-- The first-occurrence scan (acz_content.rs lines 106-112): walk the
entries with their 0-based manifest index, keeping `(index, hash)` for
each hash not seen before (`seen` models the `HashSet`). -/
def firstOccGo (seen : List (List Nat)) (i : Nat) :
    List ManifestEntry → List (Nat × List Nat)
  | [] => []
  | e :: rest =>
    if e.hash ∈ seen then firstOccGo seen (i + 1) rest
    else (i, e.hash) :: firstOccGo (e.hash :: seen) (i + 1) rest

/-- The `unique` vector of `build_overlay_zip_from_manifest`: one
`(first index, hash)` pair per distinct hash, in manifest order. -/
def firstOcc (entries : List ManifestEntry) : List (Nat × List Nat) :=
  firstOccGo [] 0 entries

/-- `paths_by_hash` lookup (acz_content.rs lines 97-103): all manifest
paths carrying the given hash, in manifest order. -/
def paths_by_hash (entries : List ManifestEntry) (h : List Nat) : List String :=
  (entries.filter (fun e => decide (e.hash = h))).map (fun e => e.path)

/-- The download schedule (acz_content.rs lines 119-125): indices of
`unique` whose blob is absent from the cache (`cacheHas` models
`blob_cache_path(..).exists()`). -/
def indices_to_download (cacheHas : List Nat → Bool) (entries : List ManifestEntry) :
    List Nat :=
  ((firstOcc entries).filter (fun p => !cacheHas p.2)).map (fun p => p.1)

/-- `parse_manifest_and_hash` then schedule: the sync aborts before any
download when the manifest-identity hash mismatches. -/
def build_overlay_schedule (hashFn : String → List Nat)
    (expectedManifestHash : Option String) (s : String)
    (cacheHas : List Nat → Bool) : Except String (List Nat) :=
  match parse_and_check_manifest hashFn expectedManifestHash s with
  | Except.error e => Except.error e
  | Except.ok (entries, _) => Except.ok (indices_to_download cacheHas entries)

/-- Rust `p.replace('\\', "/")` used when naming zip entries. -/
def normalizePath (p : String) : String :=
  String.mk (p.toList.map (fun c => if c = '\\' then '/' else c))

/-- The overlay-zip assembly loop (acz_content.rs lines 294-343): for
each `unique` hash in manifest order, write the cached blob's bytes
(`blobBytes` models reading the now-populated cache) once per path
sharing that hash, entries stored uncompressed.  Both source branches
(buffered re-use for small shared blobs, streamed copy otherwise)
produce the same entry list. -/
def build_overlay_zip_entries (blobBytes : List Nat → List Nat)
    (entries : List ManifestEntry) : List (String × List Nat) :=
  (firstOcc entries).flatMap
    (fun p => (paths_by_hash entries p.2).map
      (fun q => (normalizePath q, blobBytes p.2)))

/-! ### ManifestContentSyncer: batched blob download
(acz_content.rs, `download_blob_chunk_into_cache`) -/

/-- The content-addressed blob cache, as the set of visible files:
hash to blob bytes. -/
abbrev BlobCache : Type := List (List Nat × List Nat)

/-- Whether `blob_cache_path(root, h)` exists, and its bytes. -/
def cacheLookup (c : BlobCache) (h : List Nat) : Option (List Nat) :=
  match c with
  | [] => none
  | (k, b) :: rest => if k = h then some b else cacheLookup rest h

/-- The signed value of an unsigned 32-bit word (two's complement). -/
def i32FromU32 (u : Nat) : Int :=
  if u < 2147483648 then (u : Int) else (u : Int) - 4294967296

/-- A little-endian i32 from four bytes (two's complement). -/
def i32OfLeBytes (b0 b1 b2 b3 : Nat) : Int :=
  i32FromU32 (b0 % 256 + 256 * (b1 % 256) + 65536 * (b2 % 256) + 16777216 * (b3 % 256))

/-- `read_i32_le_reader` (acz_content.rs lines 703-709): read exactly
four bytes from the stream or fail. -/
def readI32 (s : List Nat) : Except String (Int × List Nat) :=
  match s with
  | b0 :: b1 :: b2 :: b3 :: rest => Except.ok (i32OfLeBytes b0 b1 b2 b3, rest)
  | _ => Except.error "короткий ответ download stream"

/-- The Rust `as usize` cast of an i32 on a 64-bit target
(two's complement wrap into 0..2^64). -/
def usizeOfI32 (n : Int) : Nat :=
  (n % 18446744073709551616).toNat

/-- The four little-endian bytes of a value below 2^32 (used to build
concrete streams). -/
def i32le (n : Nat) : List Nat :=
  [n % 256, n / 256 % 256, n / 65536 % 256, n / 16777216 % 256]

/-- `copy_read_exact_len_with_hash` without the incremental hasher
state (the hash is computed over the returned bytes): read exactly
`len` bytes, failing on a short stream exactly as the source's
zero-read check does. -/
def takeExact (len : Nat) (s : List Nat) :
    Except String (List Nat × List Nat) :=
  if s.length < len then Except.error "короткий ответ download stream (payload)"
  else Except.ok (s.take len, s.drop len)

/-- `discard_exact_reader` (acz_content.rs lines 678-701): consume and
drop exactly `len` bytes, failing on a short stream. -/
def discardExact (len : Nat) (s : List Nat) : Except String (List Nat) :=
  if s.length < len then Except.error "короткий ответ download stream (payload)"
  else Except.ok (s.drop len)

/-- The tail of the per-blob loop body after the payload bytes are
streamed to the temp file (acz_content.rs lines 593-620): length check,
hash check (a failure removes the temp file, so the cache is
unchanged), then the atomic rename that makes the blob visible. -/
def finishBlob (hashFn : List Nat → List Nat) (h : List Nat) (cache : BlobCache)
    (written : List Nat) (ulen : Nat) (rest : List Nat) :
    Except String (BlobCache × List Nat) :=
  if written.length ≠ ulen then Except.error "неверный размер распаковки blob"
  else if hashFn written ≠ h then Except.error "hash mismatch while downloading content"
  else Except.ok ((h, written) :: cache, rest)

/-- The cache-path-exists branch of the per-index loop (acz_content.rs
lines 532-545): another concurrent run populated the blob, so its bytes
must still be consumed from the stream to keep the response framing
valid; the existing file is untouched.  Returns the remaining stream. -/
def consumeExistingBlob (precompressed : Bool) (ulen : Nat) (s1 : List Nat) :
    Except String (List Nat) :=
  if precompressed then
    match readI32 s1 with
    | Except.error e => Except.error e
    | Except.ok (clenI, s2) =>
      if 0 < clenI then discardExact (usizeOfI32 clenI) s2
      else discardExact ulen s2
  else discardExact ulen s1

/-- The download branch of the per-index loop (acz_content.rs lines
547-620): stream the payload (whole-body reader, or a length-limited
zstd decoder when individually pre-compressed — `zstdFn` models the
decoder, and the limited reader plus drains advance the stream by the
compressed length) into the temp file while hashing, then
`finishBlob`. -/
def writeNewBlob (hashFn zstdFn : List Nat → List Nat) (precompressed : Bool)
    (h : List Nat) (cache : BlobCache) (ulen : Nat) (s1 : List Nat) :
    Except String (BlobCache × List Nat) :=
  if precompressed then
    match readI32 s1 with
    | Except.error e => Except.error e
    | Except.ok (clenI, s2) =>
      if 0 < clenI then
        if (zstdFn (s2.take (usizeOfI32 clenI))).length < ulen then
          Except.error "короткий ответ download stream (payload)"
        else
          finishBlob hashFn h cache ((zstdFn (s2.take (usizeOfI32 clenI))).take ulen) ulen
            (s2.drop (usizeOfI32 clenI))
      else
        match takeExact ulen s2 with
        | Except.error e => Except.error e
        | Except.ok (written, s3) => finishBlob hashFn h cache written ulen s3
  else
    match takeExact ulen s1 with
    | Except.error e => Except.error e
    | Except.ok (written, s3) => finishBlob hashFn h cache written ulen s3

/-- One iteration of the per-index loop of
`download_blob_chunk_into_cache` (acz_content.rs lines 523-621) for the
blob with manifest hash `h`: read the declared uncompressed length,
then either consume (cache path exists) or download-and-verify.  An
error never adds to the cache (the temp file is removed). -/
def processBlob (hashFn zstdFn : List Nat → List Nat) (precompressed : Bool)
    (h : List Nat) (cache : BlobCache) (s : List Nat) :
    Except String (BlobCache × List Nat) :=
  match readI32 s with
  | Except.error e => Except.error e
  | Except.ok (ulenI, s1) =>
    match cacheLookup cache h with
    | some _ =>
      match consumeExistingBlob precompressed (usizeOfI32 ulenI) s1 with
      | Except.error e => Except.error e
      | Except.ok s3 => Except.ok (cache, s3)
    | none => writeNewBlob hashFn zstdFn precompressed h cache (usizeOfI32 ulenI) s1

/-- The per-index loop of `download_blob_chunk_into_cache`: look up each
requested manifest index (an out-of-range index panics in Rust and is
converted to an error at the thread-join boundary) and process its
blob.  Returns the cache as left when the batch stops, so the visible
files can be stated for the error case too. -/
def processBatch (hashFn zstdFn : List Nat → List Nat)
    (entries : List ManifestEntry) (precompressed : Bool) :
    List Nat → BlobCache → List Nat → BlobCache × Except String (List Nat)
  | [], cache, s => (cache, Except.ok s)
  | idx :: rest, cache, s =>
    match entries[idx]? with
    | none => (cache, Except.error "panic в потоке скачивания blobs")
    | some e =>
      match processBlob hashFn zstdFn precompressed e.hash cache s with
      | Except.error msg => (cache, Except.error msg)
      | Except.ok (c2, s2) => processBatch hashFn zstdFn entries precompressed rest c2 s2

/-- `download_blob_chunk_into_cache` (acz_content.rs lines 469-624) for
one batch: read the flags word (bit 0 = blobs individually
pre-compressed), then process the requested indices in order against
the stream. -/
def download_blob_chunk_into_cache (hashFn zstdFn : List Nat → List Nat)
    (entries : List ManifestEntry) (indices : List Nat) (cache : BlobCache)
    (stream : List Nat) : BlobCache × Except String (List Nat) :=
  match readI32 stream with
  | Except.error e => (cache, Except.error e)
  | Except.ok (flags, s1) =>
    processBatch hashFn zstdFn entries (flags % 2 != 0) indices cache s1

/-! ### ContentAcquisitionCoordinator
(src/install/content_install.rs, `ensure_content_overlay_zip`) -/

/-- The descriptor fields of `ServerBuildInformation`
(src/ss14/ss14_server_info.rs lines 31-58). -/
structure ServerBuildInformation where
  download_url : Option String
  manifest_url : Option String
  manifest_download_url : Option String
  engine_version : String
  version : String
  fork_id : String
  hash : Option String
  manifest_hash : Option String
  acz : Bool
deriving Repr

/-- The on-disk state `ensure_content_overlay_zip` consults: the
manifest-hash-keyed overlay cache zip and marker, the key-addressed
`content/<key>/client.zip` with its sha-256 (`zipSha`, read only when
the code hashes the file) and its incremental-sync marker. -/
structure ContentFs where
  overlayZip : Bool
  overlayMarker : Bool
  zip : Bool
  zipSha : String
  aczMarker : Bool
deriving Repr, DecidableEq

/-- Which file the coordinator returns. -/
inductive ContentPath where
  | contentZip (key : String)
  | overlayCacheZip (manifestHash : String)
deriving Repr, DecidableEq

/-- Outcome of `download_to_file_with_fallback` (the monolithic
download): success leaves a file with the given sha-256, failure
carries the error message the caller inspects. -/
inductive DlOutcome where
  | ok (sha : String)
  | err (msg : String)
deriving Repr, DecidableEq

/-- Bool substring containment on character lists
(Rust `str::contains`). -/
def listContainsSublist : List Char → List Char → Bool
  | _, [] => true
  | [], _ :: _ => false
  | h :: t, p :: q => (List.isPrefixOf (p :: q) (h :: t)) || listContainsSublist t (p :: q)

/-- Rust `str::contains` for string patterns. -/
def strContains (s pat : String) : Bool :=
  listContainsSublist s.toList pat.toList

/-- The cache key derivation of `ensure_content_overlay_zip`
(content_install.rs lines 25-41): prefer the content hash, then the
manifest hash, then the version string, each trimmed and skipped when
empty. -/
def content_cache_key (b : ServerBuildInformation) : String :=
  match trimNonEmpty b.hash with
  | some h => h
  | none =>
    match trimNonEmpty b.manifest_hash with
    | some h => h
    | none => b.version

/-- `looks_like_auth` (content_install.rs lines 131-134). -/
def looks_like_auth (zipErr : String) : Bool :=
  strContains zipErr "status 401" || strContains zipErr "status 403"
    || strContains zipErr "Unauthorized" || strContains zipErr "Forbidden"

/-- `can_try_manifest` (content_install.rs lines 120-129): both the
manifest URL and the manifest download URL are present and non-blank. -/
def can_try_manifest (b : ServerBuildInformation) : Bool :=
  (trimNonEmpty b.manifest_url).isSome && (trimNonEmpty b.manifest_download_url).isSome

/-- `ensure_content_overlay_zip` (content_install.rs lines 11-198).
`dl` is the outcome the monolithic download would have, `acz` the
outcome `build_overlay_zip_from_manifest` would have; both are consumed
only if the corresponding code path runs.  Returns the result and the
final file state. -/
def ensure_content_overlay_zip (b : ServerBuildInformation)
    (fs : ContentFs) (dl : DlOutcome) (acz : Except String Unit) :
    Except String ContentPath × ContentFs :=
  match trimNonEmpty b.download_url with
  | none => (Except.error "сервер не вернул build.download_url", fs)
  | some _ =>
    let key := content_cache_key b
    let mh := trimNonEmpty b.manifest_hash
    if mh.isSome && fs.overlayZip && fs.overlayMarker then
      (Except.ok (ContentPath.overlayCacheZip (mh.getD "")), fs)
    else if fs.zip && fs.aczMarker then
      (Except.ok (ContentPath.contentZip key), fs)
    else
      let fs1 := if !fs.zip && fs.aczMarker then { fs with aczMarker := false } else fs
      let checked :=
        if fs1.zip then
          match trimNonEmpty b.hash with
          | some expected =>
            if eqIgnoreAsciiCase fs1.zipSha expected then (false, fs1)
            else (true, { fs1 with zip := false })
          | none => (false, fs1)
        else (true, fs1)
      let needs_download := checked.1
      let fs2 := checked.2
      if needs_download then
        match dl with
        | DlOutcome.ok sha =>
          let fs3 := { fs2 with zip := true, zipSha := sha }
          match trimNonEmpty b.hash with
          | some expected =>
            if eqIgnoreAsciiCase sha expected then
              (Except.ok (ContentPath.contentZip key), fs3)
            else
              (Except.error "хеш client.zip не совпадает (sha256)", { fs3 with zip := false })
          | none => (Except.ok (ContentPath.contentZip key), fs3)
        | DlOutcome.err zipErr =>
          if can_try_manifest b && looks_like_auth zipErr then
            let fs3 := { fs2 with zip := false }
            match acz with
            | Except.error aczErr =>
              (Except.error ("скачивание контента не удалось (zip): " ++ zipErr
                ++ "\nи acz/manifest тоже не удалось: " ++ aczErr), fs3)
            | Except.ok _ =>
              match mh with
              | some h =>
                (Except.ok (ContentPath.overlayCacheZip h),
                  { fs3 with overlayZip := true, overlayMarker := true })
              | none =>
                (Except.ok (ContentPath.contentZip key),
                  { fs3 with zip := true, aczMarker := true })
          else (Except.error zipErr, fs2)
      else (Except.ok (ContentPath.contentZip key), fs2)

/-! ## Theorems -/

theorem followRedirectsLoop_done {m : EngineManifest} {fuel : Nat} {v : String}
    {info : VersionInfo} (hr : info.redirect_version = none) :
    followRedirectsLoop m fuel v info = some (Except.ok (v, info)) := by
  obtain ⟨ins, rv, pl⟩ := info
  simp only at hr
  subst hr
  cases fuel <;> rfl

theorem followRedirectsLoop_zero {m : EngineManifest} {v w : String}
    {info : VersionInfo} (hr : info.redirect_version = some w) :
    followRedirectsLoop m 0 v info = none := by
  obtain ⟨ins, rv, pl⟩ := info
  simp only at hr
  subst hr
  rfl

theorem followRedirectsLoop_missing {m : EngineManifest} {f : Nat} {v w : String}
    {info : VersionInfo} (hr : info.redirect_version = some w)
    (hw : manifestGet m w = none) :
    followRedirectsLoop m (f + 1) v info =
      some (Except.error "redirect engine_version отсутствует в robust manifest") := by
  obtain ⟨ins, rv, pl⟩ := info
  simp only at hr
  subst hr
  show (match manifestGet m w with
    | none => some (Except.error "redirect engine_version отсутствует в robust manifest")
    | some info2 => followRedirectsLoop m f w info2) = _
  rw [hw]

theorem followRedirectsLoop_next {m : EngineManifest} {f : Nat} {v w : String}
    {info iw : VersionInfo} (hr : info.redirect_version = some w)
    (hw : manifestGet m w = some iw) :
    followRedirectsLoop m (f + 1) v info = followRedirectsLoop m f w iw := by
  obtain ⟨ins, rv, pl⟩ := info
  simp only at hr
  subst hr
  show (match manifestGet m w with
    | none => some (Except.error "redirect engine_version отсутствует в robust manifest")
    | some info2 => followRedirectsLoop m f w info2) = _
  rw [hw]

theorem followRedirectsLoop_cyclic (fuel : Nat) :
    followRedirectsLoop cyclicManifest fuel "1.0"
      { insecure := false, redirect_version := some "1.0", platforms := [] } = none := by
  induction fuel with
  | zero => rfl
  | succ n ih =>
    rw [followRedirectsLoop_next rfl (show manifestGet cyclicManifest "1.0" = some _ from rfl)]
    exact ih

theorem resolvesTo_followRedirectsLoop {m : EngineManifest}
    {v : String} {n : Nat} {t : String} {ti : VersionInfo}
    (h : ResolvesTo m v n t ti) :
    ∀ info, manifestGet m v = some info →
    ∀ fuel, n ≤ fuel →
    followRedirectsLoop m fuel v info = some (Except.ok (t, ti)) := by
  induction h with
  | here hv hr =>
    intro info hinfo fuel _
    rw [hv] at hinfo
    cases hinfo
    exact followRedirectsLoop_done hr
  | hop hv hr hres ih =>
    rename_i v0 info0 w0 n0 t0 ti0
    intro info hinfo fuel hfuel
    rw [hv] at hinfo
    cases hinfo
    cases fuel with
    | zero => omega
    | succ f =>
      have hw : ∃ iw, manifestGet m w0 = some iw := by
        cases hres with
        | here hw0 _ => exact ⟨_, hw0⟩
        | hop hw0 _ _ => exact ⟨_, hw0⟩
      obtain ⟨iw, hiw⟩ := hw
      rw [followRedirectsLoop_next hr hiw]
      exact ih iw hiw f (by omega)

theorem hopsTo_missing_followRedirectsLoop {m : EngineManifest}
    {v : String} {n : Nat} {u : String}
    (h : HopsTo m v n u) :
    1 ≤ n → manifestGet m u = none →
    ∀ info, manifestGet m v = some info →
    ∀ fuel, n ≤ fuel →
    followRedirectsLoop m fuel v info =
      some (Except.error "redirect engine_version отсутствует в robust manifest") := by
  induction h with
  | refl0 => intro h1; omega
  | step hv hr hrest ih =>
    intro _ hu info hinfo fuel hfuel
    rw [hv] at hinfo
    cases hinfo
    cases fuel with
    | zero => omega
    | succ f =>
      cases hrest with
      | refl0 =>
        exact followRedirectsLoop_missing hr hu
      | step hw0 hrw hrest2 =>
        rw [followRedirectsLoop_next hr hw0]
        exact ih (by omega) hu _ hw0 f (by omega)

theorem follow_redirects_of_lookup {m : EngineManifest} {fuel : Nat}
    {v : String} {info : VersionInfo} (hv : manifestGet m v = some info) :
    follow_redirects m fuel v = followRedirectsLoop m fuel v info := by
  unfold follow_redirects
  rw [hv]

theorem follow_redirects_of_missing {m : EngineManifest} {fuel : Nat}
    {v : String} (hv : manifestGet m v = none) :
    follow_redirects m fuel v =
      some (Except.error "engine_version отсутствует в robust manifest") := by
  unfold follow_redirects
  rw [hv]

/-- C4: the claim says that when the redirect chain starting at the
requested version contains a cycle (including a self-redirect),
engine-build resolution terminates with an error.  The code has no
cycle detection: `follow_redirects` loops forever on the one-entry
manifest whose version "1.0" redirects to itself.  This theorem
evaluates the embedded loop at that failing input: no amount of fuel
makes the loop finish, i.e. the Rust `while let` never exits. -/
theorem C4_redirect_cycle_diverges :
    ∀ fuel : Nat, follow_redirects cyclicManifest fuel "1.0" = none := by
  intro fuel
  rw [follow_redirects_of_lookup (show manifestGet cyclicManifest "1.0" = some _ from rfl)]
  exact followRedirectsLoop_cyclic fuel

/-- C5: on a manifest without redirect cycles, `follow_redirects`
(1) returns a redirect-free version unchanged, (2) resolves a chain of
N redirects to the terminal version, (3) errors when the requested
version is absent, and (4) errors when any redirect-target along the
chain is absent. -/
theorem C5_follow_redirects_resolution :
    (∀ (m : EngineManifest) (v : String) (info : VersionInfo),
        manifestGet m v = some info → info.redirect_version = none →
        ∀ fuel, follow_redirects m fuel v = some (Except.ok (v, info)))
    ∧ (∀ (m : EngineManifest) (v : String) (n : Nat) (t : String) (ti : VersionInfo),
        ResolvesTo m v n t ti →
        ∀ fuel, n ≤ fuel → follow_redirects m fuel v = some (Except.ok (t, ti)))
    ∧ (∀ (m : EngineManifest) (v : String) (fuel : Nat),
        manifestGet m v = none →
        follow_redirects m fuel v =
          some (Except.error "engine_version отсутствует в robust manifest"))
    ∧ (∀ (m : EngineManifest) (v u : String) (n : Nat),
        HopsTo m v n u → 1 ≤ n → manifestGet m u = none →
        ∀ fuel, n ≤ fuel →
        follow_redirects m fuel v =
          some (Except.error "redirect engine_version отсутствует в robust manifest")) := by
  refine ⟨?_, ?_, ?_, ?_⟩
  · intro m v info hv hr fuel
    rw [follow_redirects_of_lookup hv]
    exact followRedirectsLoop_done hr
  · intro m v n t ti h fuel hfuel
    have hv : ∃ info, manifestGet m v = some info := by
      cases h with
      | here hv0 _ => exact ⟨_, hv0⟩
      | hop hv0 _ _ => exact ⟨_, hv0⟩
    obtain ⟨info, hv⟩ := hv
    rw [follow_redirects_of_lookup hv]
    exact resolvesTo_followRedirectsLoop h info hv fuel hfuel
  · intro m v fuel hv
    exact follow_redirects_of_missing hv
  · intro m v u n h h1 hu fuel hfuel
    have hv : ∃ info, manifestGet m v = some info := by
      cases h with
      | refl0 => omega
      | step hv0 _ _ => exact ⟨_, hv0⟩
    obtain ⟨info, hv⟩ := hv
    rw [follow_redirects_of_lookup hv]
    exact hopsTo_missing_followRedirectsLoop h h1 hu info hv fuel hfuel

/-- Witness for C5: resolving "1.0" on `chainManifest` (one redirect
hop to "1.1") yields the terminal version "1.1" and its entry. -/
theorem C5_follow_redirects_resolution_witness :
    follow_redirects chainManifest 1 "1.0" =
      some (Except.ok ("1.1", chainTerminalInfo)) :=
  C5_follow_redirects_resolution.2.1 chainManifest "1.0" 1 "1.1" chainTerminalInfo
    (@ResolvesTo.hop chainManifest "1.0" chainHeadInfo "1.1" 0 "1.1" chainTerminalInfo
      (by decide) (by decide)
      (@ResolvesTo.here chainManifest "1.1" chainTerminalInfo (by decide) (by decide)))
    1 (by decide)

/-- C8: when the engine archive's sha-256 (compared case-insensitively
after trimming) mismatches the expected hash, `ensure_client_installed`
downloads exactly once more and recomputes; a second mismatch fails
with the hash-mismatch error; at most two downloads ever happen. -/
theorem C8_engine_hash_retry_once :
    ∀ (expected : String) (o : EngineOracle),
      (ensure_client_installed_hash_check expected o).1 ≤ 2
      ∧ (eq_hex_case_insensitive (engineFirstSha o) expected = true →
          ensure_client_installed_hash_check expected o =
            (engineInitialDownloads o, Except.ok (engineFirstSha o)))
      ∧ (eq_hex_case_insensitive (engineFirstSha o) expected = false →
          (ensure_client_installed_hash_check expected o).1 = engineInitialDownloads o + 1
          ∧ (eq_hex_case_insensitive (o.dl (engineInitialDownloads o)) expected = true →
              (ensure_client_installed_hash_check expected o).2 =
                Except.ok (o.dl (engineInitialDownloads o)))
          ∧ (eq_hex_case_insensitive (o.dl (engineInitialDownloads o)) expected = false →
              (ensure_client_installed_hash_check expected o).2 =
                Except.error "хеш engine.zip не совпадает (sha256)")) := by
  intro expected o
  have hn0 : engineInitialDownloads o ≤ 1 := by
    unfold engineInitialDownloads
    cases o.initialSha <;> simp
  unfold ensure_client_installed_hash_check
  by_cases h1 : eq_hex_case_insensitive (engineFirstSha o) expected = true
  · rw [if_pos h1]
    refine ⟨by exact Nat.le_succ_of_le hn0, fun _ => rfl, fun hc => ?_⟩
    rw [h1] at hc
    cases hc
  · rw [if_neg h1]
    have h1f : eq_hex_case_insensitive (engineFirstSha o) expected = false :=
      Bool.eq_false_iff.mpr h1
    by_cases h2 : eq_hex_case_insensitive (o.dl (engineInitialDownloads o)) expected = true
    · rw [if_pos h2]
      refine ⟨by omega, fun hc => absurd hc h1, fun _ => ⟨rfl, fun _ => rfl, fun hc2 => ?_⟩⟩
      rw [h2] at hc2
      cases hc2
    · rw [if_neg h2]
      refine ⟨by omega, fun hc => absurd hc h1, fun _ => ⟨rfl, fun hc2 => absurd hc2 h2,
        fun _ => rfl⟩⟩

/-- Witness for C8: a pre-existing archive hashing to "bb" against
expected "AA", with every redownload producing "cc": exactly one
redownload happens and the result is the fatal hash-mismatch error. -/
theorem C8_engine_hash_retry_once_witness :
    (ensure_client_installed_hash_check "AA"
        { initialSha := some "bb", dl := fun _ => "cc" }).1 = 0 + 1
    ∧ (ensure_client_installed_hash_check "AA"
        { initialSha := some "bb", dl := fun _ => "cc" }).2 =
      Except.error "хеш engine.zip не совпадает (sha256)" := by
  have h := C8_engine_hash_retry_once "AA" { initialSha := some "bb", dl := fun _ => "cc" }
  have h3 := h.2.2 (by decide)
  exact ⟨h3.1, h3.2.2 (by decide)⟩

/-- C10: the signature-verification bypass holds only when both the
compile-time debug condition and the SS14_DISABLE_SIGNING opt-in
("1" or case-insensitive "true") hold at once; with the debug condition
false (a release build) the predicate is false for every environment,
so the gate returns every verification failure unchanged. -/
theorem C10_signature_bypass_debug_only :
    (∀ env, should_allow_disable_signing_on_debug false env = false)
    ∧ (∀ (d : Bool) (env : Option String),
        should_allow_disable_signing_on_debug d env = true →
        d = true ∧ ∃ v, env = some v ∧ (v == "1" || eqIgnoreAsciiCase v "true") = true)
    ∧ (∀ (env : Option String) (e : String),
        launch_signature_gate (Except.error e)
          (should_allow_disable_signing_on_debug false env) = Except.error e) := by
  have hfalse : ∀ env, should_allow_disable_signing_on_debug false env = false := by
    intro env
    unfold should_allow_disable_signing_on_debug
    simp
  refine ⟨hfalse, ?_, ?_⟩
  · intro d env h
    unfold should_allow_disable_signing_on_debug at h
    cases env with
    | none => simp at h
    | some v =>
      rw [Bool.and_eq_true] at h
      obtain ⟨hd, hv⟩ := h
      rw [Bool.and_eq_true] at hv
      exact ⟨hd, v, rfl, hv.2⟩
  · intro env e
    unfold launch_signature_gate
    rw [hfalse env]
    rfl

/-- Witness for C10: in a debug build with SS14_DISABLE_SIGNING=TRUE the
bypass predicate is true, and the theorem pins that down to the debug
flag plus the case-insensitive "true" opt-in. -/
theorem C10_signature_bypass_debug_only_witness :
    should_allow_disable_signing_on_debug true (some "TRUE") = true
    ∧ (true = true ∧ ∃ v, (some "TRUE" : Option String) = some v
        ∧ (v == "1" || eqIgnoreAsciiCase v "true") = true) :=
  ⟨by decide, C10_signature_bypass_debug_only.2.1 true (some "TRUE") (by decide)⟩

/-- C6 counterexample: the source compares the first line only after
`trim`, so an input whose first line carries a leading space still
parses successfully even though that first line is not the exact
literal header, refuting "parsing fails unless the first line is the
exact literal header". -/
theorem C6_exact_header_counterexample :
    parse_manifest_and_hash (fun _ => []) " Robust Content Manifest 1"
      = Except.ok ([], "")
    ∧ (rustLines " Robust Content Manifest 1").head? = some " Robust Content Manifest 1"
    ∧ " Robust Content Manifest 1" ≠ "Robust Content Manifest 1" := by
  refine ⟨by rfl, by rfl, by decide⟩

theorem parseManifestLines_ok_shape :
    ∀ (ls : List String) (es : List ManifestEntry),
      parseManifestLines ls = Except.ok es →
      (∀ l ∈ ls, rustTrimEnd l ≠ "" →
        ∃ hh p bytes, splitAtFirstSpace (rustTrimEnd l) = some (hh, p)
          ∧ hexDecode hh = some bytes ∧ bytes.length = 32)
      ∧ (∀ e ∈ es, e.hash.length = 32) := by
  intro ls
  induction ls with
  | nil =>
    intro es hok
    simp only [parseManifestLines] at hok
    cases hok
    exact ⟨by simp, by simp⟩
  | cons l rest ih =>
    intro es hok
    simp only [parseManifestLines] at hok
    by_cases hblank : rustTrimEnd l = ""
    · rw [if_pos hblank] at hok
      obtain ⟨hlines, hes⟩ := ih es hok
      refine ⟨?_, hes⟩
      intro x hx hne
      cases hx with
      | head => exact absurd hblank hne
      | tail _ hx2 => exact hlines x hx2 hne
    · rw [if_neg hblank] at hok
      cases hsplit : splitAtFirstSpace (rustTrimEnd l) with
      | none => simp only [hsplit] at hok; cases hok
      | some pr =>
        obtain ⟨hh, p⟩ := pr
        simp only [hsplit] at hok
        cases hdec : hexDecode hh with
        | none => simp only [hdec] at hok; cases hok
        | some bytes =>
          simp only [hdec] at hok
          by_cases hlen : bytes.length ≠ 32
          · rw [if_pos hlen] at hok; cases hok
          · rw [if_neg hlen] at hok
            cases hrest : parseManifestLines rest with
            | error e => simp only [hrest] at hok; cases hok
            | ok es2 =>
              simp only [hrest, Except.ok.injEq] at hok
              subst hok
              obtain ⟨hlines, hes⟩ := ih es2 hrest
              push_neg at hlen
              refine ⟨?_, ?_⟩
              · intro x hx hne
                cases hx with
                | head => exact ⟨hh, p, bytes, hsplit, hdec, hlen⟩
                | tail _ hx2 => exact hlines x hx2 hne
              · intro e he
                cases he with
                | head => exact hlen
                | tail _ he2 => exact hes e he2

/-- C6 (amended): parsing fails unless the first line, after trimming
surrounding whitespace, equals the literal header "Robust Content
Manifest 1"; every non-blank subsequent line splits at its first space
into a hex hash decoding to exactly 32 bytes and a path (a malformed
line makes the whole parse fail); the manifest-identity hash is the
hash of the whole raw manifest; and a case-insensitive mismatch against
the provided expected manifest hash aborts before any download is
scheduled. -/
theorem C6_manifest_parse_amended :
    (∀ (hashFn : String → List Nat) (s : String),
        rustTrim ((rustLines s).headD "") ≠ "Robust Content Manifest 1" →
        parse_manifest_and_hash hashFn s = Except.error "неизвестный заголовок manifest")
    ∧ (∀ (hashFn : String → List Nat) (s : String) (entries : List ManifestEntry)
        (mhash : String),
        parse_manifest_and_hash hashFn s = Except.ok (entries, mhash) →
        mhash = hexEncodeUpper (hashFn s)
        ∧ (∀ l ∈ (rustLines s).tail, rustTrimEnd l ≠ "" →
            ∃ hh p bytes, splitAtFirstSpace (rustTrimEnd l) = some (hh, p)
              ∧ hexDecode hh = some bytes ∧ bytes.length = 32)
        ∧ (∀ e ∈ entries, e.hash.length = 32))
    ∧ (∀ (hashFn : String → List Nat) (exp : Option String) (expT s : String)
        (cacheHas : List Nat → Bool) (entries : List ManifestEntry) (actual : String),
        trimNonEmpty exp = some expT →
        parse_manifest_and_hash hashFn s = Except.ok (entries, actual) →
        eqIgnoreAsciiCase actual expT = false →
        build_overlay_schedule hashFn exp s cacheHas =
          Except.error "manifest_hash не совпадает") := by
  refine ⟨?_, ?_, ?_⟩
  · intro hashFn s hbad
    cases hl : rustLines s with
    | nil => simp [parse_manifest_and_hash, hl]
    | cons header rest =>
      rw [hl] at hbad
      simp only [List.headD] at hbad
      simp [parse_manifest_and_hash, hl, hbad]
  · intro hashFn s entries mhash hok
    unfold parse_manifest_and_hash at hok
    cases hl : rustLines s with
    | nil => simp only [hl] at hok; cases hok
    | cons header rest =>
      simp only [hl] at hok
      by_cases hhdr : rustTrim header ≠ "Robust Content Manifest 1"
      · rw [if_pos hhdr] at hok; cases hok
      · rw [if_neg hhdr] at hok
        cases hpl : parseManifestLines rest with
        | error e => simp only [hpl] at hok; cases hok
        | ok es =>
          simp only [hpl, Except.ok.injEq, Prod.mk.injEq] at hok
          obtain ⟨hes_eq, hmh⟩ := hok
          subst hes_eq
          obtain ⟨hlines, hes⟩ := parseManifestLines_ok_shape rest es hpl
          exact ⟨hmh.symm, by simpa using hlines, hes⟩
  · intro hashFn exp expT s cacheHas entries actual hexp hok hmis
    unfold build_overlay_schedule parse_and_check_manifest
    rw [hok, hexp]
    simp [hmis]

/-- Witness for C6 (amended): an input whose first line does not trim
to the header is rejected with the unknown-header error. -/
theorem C6_manifest_parse_amended_witness :
    parse_manifest_and_hash (fun _ => []) "bogus" =
      Except.error "неизвестный заголовок manifest" :=
  C6_manifest_parse_amended.1 (fun _ => []) "bogus" (by decide)

theorem firstOccGo_mem_snd (es : List ManifestEntry) :
    ∀ (seen : List (List Nat)) (i : Nat) (h : List Nat),
      h ∈ (firstOccGo seen i es).map Prod.snd ↔
        (h ∉ seen ∧ h ∈ es.map ManifestEntry.hash) := by
  induction es with
  | nil =>
    intro seen i h
    simp [firstOccGo]
  | cons e rest ih =>
    intro seen i h
    by_cases hc : e.hash ∈ seen
    · simp only [firstOccGo]
      rw [if_pos hc, ih]
      constructor
      · rintro ⟨hns, hm⟩
        exact ⟨hns, by simp [hm]⟩
      · rintro ⟨hns, hm⟩
        simp only [List.map_cons, List.mem_cons] at hm
        cases hm with
        | inl he => exact absurd (he ▸ hc) hns
        | inr hm2 => exact ⟨hns, hm2⟩
    · simp only [firstOccGo]
      rw [if_neg hc]
      simp only [List.map_cons, List.mem_cons, ih]
      by_cases heq : h = e.hash
      · subst heq
        simp [hc]
      · simp only [heq, false_or]

theorem firstOccGo_snd_nodup (es : List ManifestEntry) :
    ∀ (seen : List (List Nat)) (i : Nat),
      ((firstOccGo seen i es).map Prod.snd).Nodup := by
  induction es with
  | nil =>
    intro seen i
    simp [firstOccGo]
  | cons e rest ih =>
    intro seen i
    by_cases hc : e.hash ∈ seen
    · simp only [firstOccGo]
      rw [if_pos hc]
      exact ih seen (i + 1)
    · simp only [firstOccGo]
      rw [if_neg hc]
      simp only [List.map_cons, List.nodup_cons]
      refine ⟨?_, ih (e.hash :: seen) (i + 1)⟩
      intro hmem
      rw [firstOccGo_mem_snd] at hmem
      exact hmem.1 (List.mem_cons_self _ _)

theorem firstOccGo_first_index (es : List ManifestEntry) :
    ∀ (seen : List (List Nat)) (i : Nat) (p : Nat × List Nat),
      p ∈ firstOccGo seen i es →
      p.2 ∉ seen ∧ ∃ k, p.1 = i + k
        ∧ (es.map ManifestEntry.hash)[k]? = some p.2
        ∧ ∀ j < k, (es.map ManifestEntry.hash)[j]? ≠ some p.2 := by
  induction es with
  | nil =>
    intro seen i p hp
    simp [firstOccGo] at hp
  | cons e rest ih =>
    intro seen i p hp
    by_cases hc : e.hash ∈ seen
    · simp only [firstOccGo] at hp
      rw [if_pos hc] at hp
      obtain ⟨hns, k, hk1, hk2, hk3⟩ := ih seen (i + 1) p hp
      refine ⟨hns, k + 1, by omega, by simpa using hk2, ?_⟩
      intro j hj
      cases j with
      | zero =>
        simp only [List.map_cons, List.getElem?_cons_zero]
        intro hcontra
        have : e.hash = p.2 := by simpa using hcontra
        exact hns (this ▸ hc)
      | succ j2 =>
        simp only [List.map_cons, List.getElem?_cons_succ]
        exact hk3 j2 (by omega)
    · simp only [firstOccGo] at hp
      rw [if_neg hc] at hp
      cases hp with
      | head =>
        exact ⟨hc, 0, by omega, by simp, by omega⟩
      | tail _ hp2 =>
        obtain ⟨hns, k, hk1, hk2, hk3⟩ := ih (e.hash :: seen) (i + 1) p hp2
        have hne : p.2 ≠ e.hash := fun h2 => hns (h2 ▸ List.mem_cons_self _ _)
        refine ⟨fun hs => hns (List.mem_cons_of_mem _ hs), k + 1, by omega,
          by simpa using hk2, ?_⟩
        intro j hj
        cases j with
        | zero =>
          simp only [List.map_cons, List.getElem?_cons_zero]
          intro hcontra
          have he2 : e.hash = p.2 := by simpa using hcontra
          exact hne he2.symm
        | succ j2 =>
          simp only [List.map_cons, List.getElem?_cons_succ]
          exact hk3 j2 (by omega)

theorem sum_map_add_nat {α : Type} (l : List α) (f g : α → Nat) :
    (l.map (fun x => f x + g x)).sum = (l.map f).sum + (l.map g).sum := by
  induction l with
  | nil => rfl
  | cons x t ih =>
    simp only [List.map_cons, List.sum_cons, ih]
    omega

theorem sum_map_indicator (hs : List (List Nat)) (a : List Nat) :
    hs.Nodup → a ∈ hs →
    (hs.map (fun h => if a = h then 1 else 0)).sum = 1 := by
  induction hs with
  | nil =>
    intro _ hmem
    simp at hmem
  | cons h t ih =>
    intro hnd hmem
    rw [List.nodup_cons] at hnd
    simp only [List.map_cons, List.sum_cons]
    cases List.mem_cons.mp hmem with
    | inl he =>
      rw [if_pos he]
      have ht : ((t.map (fun h2 => if a = h2 then 1 else 0)).sum : Nat) = 0 := by
        apply List.sum_eq_zero
        intro x hx
        obtain ⟨h2, hh2, hval⟩ := List.mem_map.mp hx
        rw [if_neg (fun heq : a = h2 => hnd.1 (he ▸ heq ▸ hh2))] at hval
        omega
      omega
    | inr ht =>
      have hne : a ≠ h := fun heq => hnd.1 (heq ▸ ht)
      rw [if_neg hne, ih hnd.2 ht]

theorem countP_sum_by_keys (l : List ManifestEntry) :
    ∀ (hs : List (List Nat)), hs.Nodup → (∀ e ∈ l, e.hash ∈ hs) →
    (hs.map (fun h => l.countP (fun e => decide (e.hash = h)))).sum = l.length := by
  induction l with
  | nil =>
    intro hs _ _
    simp
  | cons x t ih =>
    intro hs hnd hcov
    have hx : x.hash ∈ hs := hcov x (List.mem_cons_self _ _)
    have hstep : (hs.map (fun h => (x :: t).countP (fun e => decide (e.hash = h)))) =
        hs.map (fun h => t.countP (fun e => decide (e.hash = h))
          + if x.hash = h then 1 else 0) := by
      apply List.map_congr_left
      intro h _
      rw [List.countP_cons]
      by_cases hxh : x.hash = h
      · rw [if_pos hxh, if_pos (by simpa using hxh)]
      · rw [if_neg hxh, if_neg (by simpa using hxh)]
    rw [hstep, sum_map_add_nat,
      ih hs hnd (fun e he => hcov e (List.mem_cons_of_mem _ he)),
      sum_map_indicator hs x.hash hnd hx]
    simp

/-- C2: downloads are deduplicated by hash — `unique` has nodup hashes
covering exactly the manifest's hashes, each paired with the 0-based
index of that hash's first occurrence; the schedule keeps exactly the
unique indices whose blob is absent from the cache; and the assembled
overlay zip has one entry per original manifest path (same total
count), every path present with its blob's bytes, so two paths sharing
a hash get entries with identical bytes. -/
theorem C2_dedup_schedule_and_zip :
    ∀ (entries : List ManifestEntry) (cacheHas : List Nat → Bool)
      (blobBytes : List Nat → List Nat),
      ((firstOcc entries).map Prod.snd).Nodup
      ∧ (∀ h, h ∈ (firstOcc entries).map Prod.snd ↔ h ∈ entries.map ManifestEntry.hash)
      ∧ (∀ p ∈ firstOcc entries,
          (entries.map ManifestEntry.hash)[p.1]? = some p.2
          ∧ ∀ j < p.1, (entries.map ManifestEntry.hash)[j]? ≠ some p.2)
      ∧ (∀ i, i ∈ indices_to_download cacheHas entries ↔
          ∃ h, (i, h) ∈ firstOcc entries ∧ cacheHas h = false)
      ∧ (build_overlay_zip_entries blobBytes entries).length = entries.length
      ∧ (∀ e ∈ entries,
          (normalizePath e.path, blobBytes e.hash) ∈
            build_overlay_zip_entries blobBytes entries)
      ∧ (∀ e1 ∈ entries, ∀ e2 ∈ entries, e1.hash = e2.hash →
          (normalizePath e1.path, blobBytes e1.hash) ∈
            build_overlay_zip_entries blobBytes entries
          ∧ (normalizePath e2.path, blobBytes e1.hash) ∈
            build_overlay_zip_entries blobBytes entries) := by
  intro entries cacheHas blobBytes
  have hnodup := firstOccGo_snd_nodup entries [] 0
  have hmem : ∀ h, h ∈ (firstOcc entries).map Prod.snd ↔
      h ∈ entries.map ManifestEntry.hash := by
    intro h
    rw [firstOcc, firstOccGo_mem_snd]
    simp
  have hzipmem : ∀ e ∈ entries,
      (normalizePath e.path, blobBytes e.hash) ∈
        build_overlay_zip_entries blobBytes entries := by
    intro e he
    have hh : e.hash ∈ (firstOcc entries).map Prod.snd := by
      rw [hmem]
      exact List.mem_map.mpr ⟨e, he, rfl⟩
    obtain ⟨p, hp, hp2⟩ := List.mem_map.mp hh
    unfold build_overlay_zip_entries
    rw [List.mem_flatMap]
    refine ⟨p, hp, ?_⟩
    rw [List.mem_map]
    refine ⟨e.path, ?_, by rw [hp2]⟩
    unfold paths_by_hash
    rw [List.mem_map]
    refine ⟨e, ?_, rfl⟩
    rw [List.mem_filter]
    exact ⟨he, by simp [hp2]⟩
  refine ⟨hnodup, hmem, ?_, ?_, ?_, hzipmem, ?_⟩
  · intro p hp
    obtain ⟨_, k, hk1, hk2, hk3⟩ := firstOccGo_first_index entries [] 0 p hp
    have : p.1 = k := by omega
    subst this
    exact ⟨hk2, hk3⟩
  · intro i
    unfold indices_to_download
    rw [List.mem_map]
    constructor
    · rintro ⟨p, hp, hpi⟩
      rw [List.mem_filter] at hp
      obtain ⟨p1, p2⟩ := p
      simp only at hpi
      subst hpi
      exact ⟨p2, hp.1, by simpa using hp.2⟩
    · rintro ⟨h, hmem2, hch⟩
      refine ⟨(i, h), ?_, rfl⟩
      rw [List.mem_filter]
      exact ⟨hmem2, by simp [hch]⟩
  · unfold build_overlay_zip_entries
    have hlen : ∀ (l : List (Nat × List Nat)) (f : Nat × List Nat → List (String × List Nat)),
        (l.flatMap f).length = (l.map (fun x => (f x).length)).sum := by
      intro l f
      induction l with
      | nil => rfl
      | cons x t ih => simp [List.flatMap_cons, ih]
    rw [hlen]
    have hpl : ((firstOcc entries).map
        (fun p => ((paths_by_hash entries p.2).map
          (fun q => (normalizePath q, blobBytes p.2))).length)) =
        ((firstOcc entries).map Prod.snd).map
          (fun h => entries.countP (fun e => decide (e.hash = h))) := by
      rw [List.map_map]
      apply List.map_congr_left
      intro p _
      simp only [Function.comp, List.length_map]
      unfold paths_by_hash
      rw [List.length_map, ← List.countP_eq_length_filter]
    rw [hpl]
    exact countP_sum_by_keys entries ((firstOcc entries).map Prod.snd) hnodup
      (fun e he => (hmem e.hash).mpr (List.mem_map.mpr ⟨e, he, rfl⟩))
  · intro e1 he1 e2 he2 hh
    exact ⟨hzipmem e1 he1, hh ▸ hzipmem e2 he2⟩

/-- Witness for C2: the spec's scenario — three entries, two sharing a
hash, the other hash already cached: exactly index 0 is scheduled, the
zip has three entries, and the shared-hash paths both appear with the
blob's bytes. -/
theorem C2_dedup_schedule_and_zip_witness :
    indices_to_download (fun h => decide (h = [2]))
      [{ path := "a.txt", hash := [1] }, { path := "b.txt", hash := [1] },
       { path := "c.txt", hash := [2] }] = [0]
    ∧ (build_overlay_zip_entries (fun h => h)
      [{ path := "a.txt", hash := [1] }, { path := "b.txt", hash := [1] },
       { path := "c.txt", hash := [2] }]).length = 3
    ∧ (normalizePath "a.txt", ([1] : List Nat)) ∈ build_overlay_zip_entries (fun h => h)
      [{ path := "a.txt", hash := [1] }, { path := "b.txt", hash := [1] },
       { path := "c.txt", hash := [2] }]
    ∧ (normalizePath "b.txt", ([1] : List Nat)) ∈ build_overlay_zip_entries (fun h => h)
      [{ path := "a.txt", hash := [1] }, { path := "b.txt", hash := [1] },
       { path := "c.txt", hash := [2] }] := by
  have h := C2_dedup_schedule_and_zip
    [{ path := "a.txt", hash := [1] }, { path := "b.txt", hash := [1] },
     { path := "c.txt", hash := [2] }] (fun h => decide (h = [2])) (fun h => h)
  have hpair := h.2.2.2.2.2.2 { path := "a.txt", hash := [1] } (by decide)
    { path := "b.txt", hash := [1] } (by decide) (by decide)
  exact ⟨by decide, h.2.2.2.2.1, hpair.1, hpair.2⟩

theorem readI32_i32le (n : Nat) (s : List Nat) (hn : n < 2147483648) :
    readI32 (i32le n ++ s) = Except.ok ((n : Int), s) := by
  show readI32 (n % 256 :: n / 256 % 256 :: n / 65536 % 256 :: n / 16777216 % 256 :: s) = _
  simp only [readI32, i32OfLeBytes]
  have hu : n % 256 % 256 + 256 * (n / 256 % 256 % 256) + 65536 * (n / 65536 % 256 % 256)
      + 16777216 * (n / 16777216 % 256 % 256) = n := by omega
  rw [hu]
  unfold i32FromU32
  rw [if_pos hn]

theorem usizeOfI32_ofNat (n : Nat) (h : n < 18446744073709551616) :
    usizeOfI32 (n : Int) = n := by
  unfold usizeOfI32
  omega

theorem finishBlob_ok {hashFn : List Nat → List Nat} {h : List Nat}
    {cache : BlobCache} {w : List Nat} {u : Nat} {rest : List Nat}
    {c2 : BlobCache} {s2 : List Nat}
    (hok : finishBlob hashFn h cache w u rest = Except.ok (c2, s2)) :
    c2 = (h, w) :: cache ∧ hashFn w = h ∧ s2 = rest := by
  unfold finishBlob at hok
  split at hok
  · cases hok
  · split at hok
    · cases hok
    · rename_i hlen hhash
      cases hok
      exact ⟨rfl, by simpa using hhash, rfl⟩

theorem finishBlob_mismatch {hashFn : List Nat → List Nat} {h : List Nat}
    {cache : BlobCache} {w : List Nat} {u : Nat} {rest : List Nat}
    (hlen : w.length = u) (hne : hashFn w ≠ h) :
    finishBlob hashFn h cache w u rest =
      Except.error "hash mismatch while downloading content" := by
  unfold finishBlob
  rw [if_neg (fun hc => hc hlen), if_pos hne]

theorem writeNewBlob_ok_cache {hashFn zstdFn : List Nat → List Nat}
    {pre : Bool} {h : List Nat} {cache : BlobCache} {ulen : Nat}
    {s1 : List Nat} {c2 : BlobCache} {s2 : List Nat}
    (hok : writeNewBlob hashFn zstdFn pre h cache ulen s1 = Except.ok (c2, s2)) :
    ∃ w, c2 = (h, w) :: cache ∧ hashFn w = h := by
  unfold writeNewBlob at hok
  split at hok
  · split at hok
    · cases hok
    · split at hok
      · split at hok
        · cases hok
        · obtain ⟨hc2, hw, _⟩ := finishBlob_ok hok
          exact ⟨_, hc2, hw⟩
      · split at hok
        · cases hok
        · obtain ⟨hc2, hw, _⟩ := finishBlob_ok hok
          exact ⟨_, hc2, hw⟩
  · split at hok
    · cases hok
    · obtain ⟨hc2, hw, _⟩ := finishBlob_ok hok
      exact ⟨_, hc2, hw⟩

theorem processBlob_ok_cache {hashFn zstdFn : List Nat → List Nat}
    {pre : Bool} {h : List Nat} {cache : BlobCache} {s : List Nat}
    {c2 : BlobCache} {s2 : List Nat}
    (hok : processBlob hashFn zstdFn pre h cache s = Except.ok (c2, s2)) :
    c2 = cache ∨ ∃ w, c2 = (h, w) :: cache ∧ hashFn w = h := by
  unfold processBlob at hok
  split at hok
  · cases hok
  · split at hok
    · split at hok
      · cases hok
      · cases hok
        exact Or.inl rfl
    · exact Or.inr (writeNewBlob_ok_cache hok)

theorem processBatch_cache_invariant (hashFn zstdFn : List Nat → List Nat)
    (entries : List ManifestEntry) (pre : Bool) :
    ∀ (indices : List Nat) (cache : BlobCache) (s : List Nat),
      ∀ p ∈ (processBatch hashFn zstdFn entries pre indices cache s).1,
        p ∈ cache ∨ hashFn p.2 = p.1 := by
  intro indices
  induction indices with
  | nil =>
    intro cache s p hp
    exact Or.inl hp
  | cons idx rest ih =>
    intro cache s p hp
    simp only [processBatch] at hp
    split at hp
    · exact Or.inl hp
    · split at hp
      · exact Or.inl hp
      · rename_i e he2 c2 s2 hpb
        have hmem := ih c2 s2 p hp
        cases hmem with
        | inr hh => exact Or.inr hh
        | inl hin =>
          cases processBlob_ok_cache hpb with
          | inl hc =>
            exact Or.inl (hc ▸ hin)
          | inr hex =>
            obtain ⟨w, hc2, hw⟩ := hex
            rw [hc2] at hin
            cases List.mem_cons.mp hin with
            | inl hpw =>
              refine Or.inr ?_
              rw [hpw]
              exact hw
            | inr hpc => exact Or.inl hpc

/-- C1: batch blob downloads never make a wrong blob visible — every
cache entry after a batch (whether the batch succeeded or failed) is
either pre-existing or correctly hashed; a hash mismatch on a fresh
blob fails the batch with the temp file removed (cache unchanged); a
short payload fails the batch likewise; and when the cache path already
exists the blob's declared bytes are fully consumed from the stream
while the existing file is kept without error. -/
theorem C1_blob_download_integrity :
    (∀ (hashFn zstdFn : List Nat → List Nat) (entries : List ManifestEntry)
        (indices : List Nat) (cache : BlobCache) (stream : List Nat),
      ∀ p ∈ (download_blob_chunk_into_cache hashFn zstdFn entries indices cache stream).1,
        p ∈ cache ∨ hashFn p.2 = p.1)
    ∧ (∀ (hashFn zstdFn : List Nat → List Nat) (entries : List ManifestEntry)
        (idx : Nat) (path : String) (h : List Nat) (ulen : Nat)
        (payload rest : List Nat) (cache : BlobCache),
        entries[idx]? = some { path := path, hash := h } →
        cacheLookup cache h = none →
        payload.length = ulen → ulen < 2147483648 →
        hashFn payload ≠ h →
        download_blob_chunk_into_cache hashFn zstdFn entries [idx] cache
          (i32le 0 ++ (i32le ulen ++ (payload ++ rest))) =
          (cache, Except.error "hash mismatch while downloading content"))
    ∧ (∀ (hashFn zstdFn : List Nat → List Nat) (entries : List ManifestEntry)
        (idx : Nat) (path : String) (h : List Nat) (ulen : Nat)
        (payload : List Nat) (cache : BlobCache),
        entries[idx]? = some { path := path, hash := h } →
        cacheLookup cache h = none →
        payload.length < ulen → ulen < 2147483648 →
        download_blob_chunk_into_cache hashFn zstdFn entries [idx] cache
          (i32le 0 ++ (i32le ulen ++ payload)) =
          (cache, Except.error "короткий ответ download stream (payload)"))
    ∧ (∀ (hashFn zstdFn : List Nat → List Nat) (entries : List ManifestEntry)
        (idx : Nat) (path : String) (h b : List Nat) (ulen : Nat)
        (payload rest : List Nat) (cache : BlobCache),
        entries[idx]? = some { path := path, hash := h } →
        cacheLookup cache h = some b →
        payload.length = ulen → ulen < 2147483648 →
        download_blob_chunk_into_cache hashFn zstdFn entries [idx] cache
          (i32le 0 ++ (i32le ulen ++ (payload ++ rest))) =
          (cache, Except.ok rest)) := by
  have hflags : ∀ (s : List Nat), readI32 (i32le 0 ++ s) = Except.ok ((0 : Int), s) :=
    fun s => readI32_i32le 0 s (by omega)
  refine ⟨?_, ?_, ?_, ?_⟩
  · intro hashFn zstdFn entries indices cache stream p hp
    unfold download_blob_chunk_into_cache at hp
    split at hp
    · exact Or.inl hp
    · exact processBatch_cache_invariant hashFn zstdFn entries _ indices cache _ p hp
  · intro hashFn zstdFn entries idx path h ulen payload rest cache
      hidx hcl hlen hsmall hne
    unfold download_blob_chunk_into_cache
    rw [hflags]
    show processBatch hashFn zstdFn entries ((0 : Int) % 2 != 0) [idx] cache _ = _
    have hpre : ((0 : Int) % 2 != 0) = false := by decide
    rw [hpre]
    simp only [processBatch, hidx]
    have hblob : processBlob hashFn zstdFn false h cache
        (i32le ulen ++ (payload ++ rest)) =
        Except.error "hash mismatch while downloading content" := by
      unfold processBlob
      rw [readI32_i32le ulen (payload ++ rest) hsmall]
      simp only [hcl]
      unfold writeNewBlob
      rw [if_neg (by simp)]
      unfold takeExact
      rw [if_neg (by simp [usizeOfI32_ofNat ulen (by omega)]; omega)]
      rw [usizeOfI32_ofNat ulen (by omega), ← hlen, List.take_left, List.drop_left]
      exact finishBlob_mismatch rfl hne
    rw [hblob]
  · intro hashFn zstdFn entries idx path h ulen payload cache hidx hcl hlen hsmall
    unfold download_blob_chunk_into_cache
    rw [hflags]
    show processBatch hashFn zstdFn entries ((0 : Int) % 2 != 0) [idx] cache _ = _
    have hpre : ((0 : Int) % 2 != 0) = false := by decide
    rw [hpre]
    simp only [processBatch, hidx]
    have hblob : processBlob hashFn zstdFn false h cache (i32le ulen ++ payload) =
        Except.error "короткий ответ download stream (payload)" := by
      unfold processBlob
      rw [readI32_i32le ulen payload hsmall]
      simp only [hcl]
      unfold writeNewBlob
      rw [if_neg (by simp)]
      unfold takeExact
      rw [if_pos (by rw [usizeOfI32_ofNat ulen (by omega)]; omega)]
    rw [hblob]
  · intro hashFn zstdFn entries idx path h b ulen payload rest cache
      hidx hcl hlen hsmall
    unfold download_blob_chunk_into_cache
    rw [hflags]
    show processBatch hashFn zstdFn entries ((0 : Int) % 2 != 0) [idx] cache _ = _
    have hpre : ((0 : Int) % 2 != 0) = false := by decide
    rw [hpre]
    simp only [processBatch, hidx]
    have hblob : processBlob hashFn zstdFn false h cache
        (i32le ulen ++ (payload ++ rest)) = Except.ok (cache, rest) := by
      unfold processBlob
      rw [readI32_i32le ulen (payload ++ rest) hsmall]
      simp only [hcl]
      unfold consumeExistingBlob
      rw [if_neg (by simp)]
      unfold discardExact
      rw [if_neg (by simp [usizeOfI32_ofNat ulen (by omega)]; omega)]
      rw [usizeOfI32_ofNat ulen (by omega), ← hlen, List.drop_left]
    rw [hblob]

/-- Witness for C1: a one-entry batch whose payload hashes wrongly
fails with the hash-mismatch error and leaves the cache empty. -/
theorem C1_blob_download_integrity_witness :
    download_blob_chunk_into_cache (fun w => [w.length + 10]) (fun w => w)
      [{ path := "a", hash := [9, 9] }] [0] []
      (i32le 0 ++ (i32le 1 ++ ([7] ++ []))) =
      ([], Except.error "hash mismatch while downloading content") :=
  C1_blob_download_integrity.2.1 (fun w => [w.length + 10]) (fun w => w)
    [{ path := "a", hash := [9, 9] }] 0 "a" [9, 9] 1 [7] [] []
    (by decide) (by decide) (by decide) (by decide) (by decide)

/-- C9: the content cache key prefers the trimmed-non-empty content
hash, then the trimmed-non-empty manifest hash, then the version
string; the manifest-hash-keyed overlay cache zip is returned first
whenever it and its marker exist (for any download or sync outcome);
and a same-key archive carrying the incremental-sync marker is returned
as-is for every possible sha-256 of its bytes, i.e. without hash
verification, and for any download or sync outcome. -/
theorem C9_cache_key_and_cache_hits :
    (∀ (b : ServerBuildInformation) (h : String),
        trimNonEmpty b.hash = some h → content_cache_key b = h)
    ∧ (∀ (b : ServerBuildInformation) (h : String),
        trimNonEmpty b.hash = none → trimNonEmpty b.manifest_hash = some h →
        content_cache_key b = h)
    ∧ (∀ (b : ServerBuildInformation),
        trimNonEmpty b.hash = none → trimNonEmpty b.manifest_hash = none →
        content_cache_key b = b.version)
    ∧ (∀ (b : ServerBuildInformation) (fs : ContentFs) (dl : DlOutcome)
        (acz : Except String Unit) (purl h : String),
        trimNonEmpty b.download_url = some purl →
        trimNonEmpty b.manifest_hash = some h →
        fs.overlayZip = true → fs.overlayMarker = true →
        ensure_content_overlay_zip b fs dl acz =
          (Except.ok (ContentPath.overlayCacheZip h), fs))
    ∧ (∀ (b : ServerBuildInformation) (fs : ContentFs) (dl : DlOutcome)
        (acz : Except String Unit) (purl : String),
        trimNonEmpty b.download_url = some purl →
        fs.overlayZip = false → fs.zip = true → fs.aczMarker = true →
        ensure_content_overlay_zip b fs dl acz =
          (Except.ok (ContentPath.contentZip (content_cache_key b)), fs)) := by
  refine ⟨?_, ?_, ?_, ?_, ?_⟩
  · intro b h hh
    unfold content_cache_key
    rw [hh]
  · intro b h hh hmh
    unfold content_cache_key
    rw [hh, hmh]
  · intro b hh hmh
    unfold content_cache_key
    rw [hh, hmh]
  · intro b fs dl acz purl h hdl hmh hoz hom
    simp [ensure_content_overlay_zip, hdl, hmh, hoz, hom]
  · intro b fs dl acz purl hdl hoz hz ham
    simp [ensure_content_overlay_zip, hdl, hoz, hz, ham]

/-- Witness for C9: a descriptor with content hash "AB" and manifest
hash "CD", overlay cache zip and marker both present: the key is "AB"
and the overlay cache path is returned untouched even though the
download oracle would fail. -/
theorem C9_cache_key_and_cache_hits_witness :
    content_cache_key
      { download_url := some "http://x/c.zip", manifest_url := some "http://x/m",
        manifest_download_url := some "http://x/d", engine_version := "1.0",
        version := "v1", fork_id := "f", hash := some "AB",
        manifest_hash := some "CD", acz := true } = "AB"
    ∧ ensure_content_overlay_zip
      { download_url := some "http://x/c.zip", manifest_url := some "http://x/m",
        manifest_download_url := some "http://x/d", engine_version := "1.0",
        version := "v1", fork_id := "f", hash := some "AB",
        manifest_hash := some "CD", acz := true }
      { overlayZip := true, overlayMarker := true, zip := false,
        zipSha := "", aczMarker := false }
      (DlOutcome.err "boom") (Except.ok ()) =
      (Except.ok (ContentPath.overlayCacheZip "CD"),
        { overlayZip := true, overlayMarker := true, zip := false,
          zipSha := "", aczMarker := false }) :=
  ⟨C9_cache_key_and_cache_hits.1 _ "AB" (by decide),
   C9_cache_key_and_cache_hits.2.2.2.1 _ _ (DlOutcome.err "boom") (Except.ok ())
     "http://x/c.zip" "CD" (by decide) (by decide) rfl rfl⟩

/-- C7: when the monolithic download fails and the fast cache paths do
not apply, the coordinator falls back to the manifest sync iff the
failure looks like an authorization rejection AND both manifest URLs
are non-blank; a successful fallback returns the manifest-hash-keyed
overlay location with its marker stamped when a manifest hash exists,
else the key-addressed zip with the acz marker stamped; a failed
fallback returns the composite error naming both failures; otherwise
the original download error is returned. -/
theorem C7_auth_fallback_policy :
    ∀ (b : ServerBuildInformation) (fs : ContentFs) (purl zipErr : String),
      trimNonEmpty b.download_url = some purl →
      fs.overlayZip = false → fs.zip = false →
      ((can_try_manifest b && looks_like_auth zipErr) = false →
        ∀ acz, (ensure_content_overlay_zip b fs (DlOutcome.err zipErr) acz).1 =
          Except.error zipErr)
      ∧ (∀ aczErr, (can_try_manifest b && looks_like_auth zipErr) = true →
          (ensure_content_overlay_zip b fs (DlOutcome.err zipErr)
            (Except.error aczErr)).1 =
            Except.error ("скачивание контента не удалось (zip): " ++ zipErr
              ++ "\nи acz/manifest тоже не удалось: " ++ aczErr))
      ∧ (∀ h, (can_try_manifest b && looks_like_auth zipErr) = true →
          trimNonEmpty b.manifest_hash = some h →
          (ensure_content_overlay_zip b fs (DlOutcome.err zipErr) (Except.ok ())).1 =
            Except.ok (ContentPath.overlayCacheZip h)
          ∧ ((ensure_content_overlay_zip b fs (DlOutcome.err zipErr)
              (Except.ok ())).2).overlayZip = true
          ∧ ((ensure_content_overlay_zip b fs (DlOutcome.err zipErr)
              (Except.ok ())).2).overlayMarker = true)
      ∧ ((can_try_manifest b && looks_like_auth zipErr) = true →
          trimNonEmpty b.manifest_hash = none →
          (ensure_content_overlay_zip b fs (DlOutcome.err zipErr) (Except.ok ())).1 =
            Except.ok (ContentPath.contentZip (content_cache_key b))
          ∧ ((ensure_content_overlay_zip b fs (DlOutcome.err zipErr)
              (Except.ok ())).2).aczMarker = true) := by
  intro b fs purl zipErr hdl hoz hz
  refine ⟨?_, ?_, ?_, ?_⟩
  · intro hcond acz
    simp [ensure_content_overlay_zip, hdl, hoz, hz, hcond, apply_ite]
  · intro aczErr hcond
    simp [ensure_content_overlay_zip, hdl, hoz, hz, hcond, apply_ite]
  · intro h hcond hmh
    simp [ensure_content_overlay_zip, hdl, hoz, hz, hcond, hmh, apply_ite]
  · intro hcond hmh
    simp [ensure_content_overlay_zip, hdl, hoz, hz, hcond, hmh, apply_ite]

/-- Witness for C7: a 403-style failure with both manifest URLs set and
manifest hash "CD": the fallback runs, the overlay path is returned and
both overlay files are marked present. -/
theorem C7_auth_fallback_policy_witness :
    (ensure_content_overlay_zip
      { download_url := some "http://x/c.zip", manifest_url := some "http://x/m",
        manifest_download_url := some "http://x/d", engine_version := "1.0",
        version := "v1", fork_id := "f", hash := none,
        manifest_hash := some "CD", acz := true }
      { overlayZip := false, overlayMarker := false, zip := false,
        zipSha := "", aczMarker := false }
      (DlOutcome.err "скачивание http://x/c.zip: status 403") (Except.ok ())).1 =
      Except.ok (ContentPath.overlayCacheZip "CD") := by
  have h := C7_auth_fallback_policy
    { download_url := some "http://x/c.zip", manifest_url := some "http://x/m",
      manifest_download_url := some "http://x/d", engine_version := "1.0",
      version := "v1", fork_id := "f", hash := none,
      manifest_hash := some "CD", acz := true }
    { overlayZip := false, overlayMarker := false, zip := false,
      zipSha := "", aczMarker := false }
    "http://x/c.zip" "скачивание http://x/c.zip: status 403"
    (by decide) rfl rfl
  exact (h.2.2.1 "CD" (by decide) (by decide)).1

/-- C3 counterexample: with the engine archive cached and hash-valid
(the state after a first successful call), a second
`ensure_client_installed` still performs one network request — the
unconditional robust-manifest fetch inside `resolve_engine_build` — so
the pipeline's second call does not perform zero network requests. -/
theorem C3_second_call_counterexample :
    ensure_client_installed_request_count "aa"
      { initialSha := some "aa", dl := fun _ => "zz" } = 1
    ∧ (1 : Nat) ≠ 0 := by
  refine ⟨?_, by decide⟩
  show 1 + (ensure_client_installed_hash_check "aa"
    { initialSha := some "aa", dl := fun _ => "zz" }).1 = 1
  decide

/-- C3 (amended): on a second call with unchanged server data and an
intact cache, no archive, blob or content download happens — the engine
step performs zero downloads (its single network request is the
robust-manifest fetch), and the content step returns the cached overlay
with a result independent of the download and sync oracles, i.e.
without touching the network. -/
theorem C3_second_call_cached_amended :
    (∀ (expected : String) (o : EngineOracle) (sha : String),
        o.initialSha = some sha →
        eq_hex_case_insensitive sha expected = true →
        ensure_client_installed_hash_check expected o = (0, Except.ok sha)
        ∧ ensure_client_installed_request_count expected o = 1)
    ∧ (∀ (b : ServerBuildInformation) (fs : ContentFs) (purl h : String)
        (dl dl2 : DlOutcome) (acz acz2 : Except String Unit),
        trimNonEmpty b.download_url = some purl →
        trimNonEmpty b.manifest_hash = some h →
        fs.overlayZip = true → fs.overlayMarker = true →
        ensure_content_overlay_zip b fs dl acz = ensure_content_overlay_zip b fs dl2 acz2
        ∧ ensure_content_overlay_zip b fs dl acz =
          (Except.ok (ContentPath.overlayCacheZip h), fs))
    ∧ (∀ (b : ServerBuildInformation) (fs : ContentFs) (purl expected : String)
        (dl dl2 : DlOutcome) (acz acz2 : Except String Unit),
        trimNonEmpty b.download_url = some purl →
        fs.overlayZip = false → fs.zip = true → fs.aczMarker = false →
        trimNonEmpty b.hash = some expected →
        eqIgnoreAsciiCase fs.zipSha expected = true →
        ensure_content_overlay_zip b fs dl acz = ensure_content_overlay_zip b fs dl2 acz2
        ∧ ensure_content_overlay_zip b fs dl acz =
          (Except.ok (ContentPath.contentZip (content_cache_key b)), fs)) := by
  refine ⟨?_, ?_, ?_⟩
  · intro expected o sha hsha heq
    have hfirst : engineFirstSha o = sha := by
      unfold engineFirstSha
      rw [hsha]
    have hn0 : engineInitialDownloads o = 0 := by
      unfold engineInitialDownloads
      rw [hsha]
    have hmain : ensure_client_installed_hash_check expected o = (0, Except.ok sha) := by
      unfold ensure_client_installed_hash_check
      rw [hn0]
      rw [hfirst]
      rw [if_pos heq]
    refine ⟨hmain, ?_⟩
    unfold ensure_client_installed_request_count
    rw [hmain]
    rfl
  · intro b fs purl h dl dl2 acz acz2 hdl hmh hoz hom
    have hval : ∀ (d : DlOutcome) (a : Except String Unit),
        ensure_content_overlay_zip b fs d a =
          (Except.ok (ContentPath.overlayCacheZip h), fs) := by
      intro d a
      simp [ensure_content_overlay_zip, hdl, hmh, hoz, hom]
    exact ⟨(hval dl acz).trans (hval dl2 acz2).symm, hval dl acz⟩
  · intro b fs purl expected dl dl2 acz acz2 hdl hoz hz ham hexp hsha
    have hval : ∀ (d : DlOutcome) (a : Except String Unit),
        ensure_content_overlay_zip b fs d a =
          (Except.ok (ContentPath.contentZip (content_cache_key b)), fs) := by
      intro d a
      simp [ensure_content_overlay_zip, hdl, hoz, hz, ham, hexp, hsha, apply_ite]
    exact ⟨(hval dl acz).trans (hval dl2 acz2).symm, hval dl acz⟩

/-- Witness for C3 (amended): the engine step with a cached archive
whose hash matches (case-insensitively) performs zero downloads and one
request total. -/
theorem C3_second_call_cached_amended_witness :
    ensure_client_installed_hash_check "AA"
      { initialSha := some "aa", dl := fun _ => "zz" } = (0, Except.ok "aa")
    ∧ ensure_client_installed_request_count "AA"
      { initialSha := some "aa", dl := fun _ => "zz" } = 1 :=
  C3_second_call_cached_amended.1 "AA"
    { initialSha := some "aa", dl := fun _ => "zz" } "aa" rfl (by decide)

end SGLoader
